import Mathlib

/-!
Shallow embedding of the `reconstruct_asserts` pass of charon and of the
AST it operates on, together with proofs about the canonicalization.

The pass (`src/charon/src/reconstruct_asserts.rs`) rewrites structured
statements, folding `if cond { panic } else { rest }` into
`assert(cond == false); rest`.  The statement type it consumes is
`llbc_ast::Statement`; its declaration is not part of the sources at hand,
but its constructor vocabulary is fully determined by the exhaustive
`match` in `simplify_st` and coincides with the `Statement`/`Expression`
pair of `src/charon/src/cfim_ast.rs` merged into a single tree (the spec's
"Structured Expression").  Operands, places, rvalues and the other
leaf-level values are opaque to the pass (it only moves them around), so
they are embedded as atoms.
-/

namespace Charon

/-- Opaque leaf data: places are never inspected by the pass. -/
abbrev Place := Nat

/-- Opaque leaf data: rvalues are never inspected by the pass. -/
abbrev Rvalue := Nat

/-- Opaque leaf data: operands are never inspected by the pass. -/
abbrev Operand := Nat

/-- Opaque leaf data: variant identifiers. -/
abbrev VariantId := Nat

/-- Opaque leaf data: the scalar values indexing `SwitchInt` branches. -/
abbrev ScalarValue := Nat

/-- Opaque leaf data: erased regions (`ErasedRegion` in the source). -/
abbrev ErasedRegion := Nat

/-- Opaque leaf data: erased types (`ETy` in the source). -/
abbrev ETy := Nat

/-- Opaque leaf data: definition identifiers (`DefId::Id`). -/
abbrev DefId := Nat

/-- Translation of `IntegerTy`, from `src/charon/src/types.rs` (lines 99-112). -/
inductive IntegerTy where
  | Isize | I8 | I16 | I32 | I64 | I128
  | Usize | U8 | U16 | U32 | U64 | U128
  deriving DecidableEq, Repr

/-- Identifiers of the four assumed (builtin) functions, from `im_ast`
(determined by the `AssumedFunId` match in `cfim_ast.rs`). -/
inductive AssumedFunId where
  | BoxNew | BoxDeref | BoxDerefMut | BoxFree
  deriving DecidableEq, Repr

/-- A function identifier: a local declaration or an assumed builtin
(as matched in `cfim_ast.rs`, `Statement::fmt_with_ctx`). -/
inductive FunId where
  | Local (def_id : DefId)
  | Assumed (id : AssumedFunId)
  deriving DecidableEq, Repr

/-- The `Assert` statement payload, `src/charon/src/cfim_ast.rs` lines 21-25. -/
structure Assert where
  cond : Operand
  expected : Bool
  deriving DecidableEq, Repr

/-- The `Call` statement payload, `src/charon/src/cfim_ast.rs` lines 27-38. -/
structure Call where
  func : FunId
  region_params : List ErasedRegion
  type_params : List ETy
  args : List Operand
  dest : Place
  deriving DecidableEq, Repr

mutual
/-- The statement tree rewritten by `simplify_st`
(`llbc_ast::Statement`; leaf vocabulary at `src/charon/src/cfim_ast.rs`
lines 40-65, tree constructors at lines 83-89, variant set fixed by the
exhaustive match of `simplify_st`). -/
inductive Statement where
  | Assign (p : Place) (rv : Rvalue)
  | FakeRead (p : Place)
  | SetDiscriminant (p : Place) (vid : VariantId)
  | Drop (p : Place)
  | Assert (a : Charon.Assert)
  | Call (c : Charon.Call)
  /-- Panic also handles "unreachable" -/
  | Panic
  | Return
  /-- Break to outer loops; the index gives the outer loop to break to. -/
  | Break (i : Nat)
  /-- Continue to outer loops; the index gives the outer loop to continue to. -/
  | Continue (i : Nat)
  | Nop
  | Switch (op : Operand) (targets : SwitchTargets)
  | Loop (body : Statement)
  | Sequence (st1 : Statement) (st2 : Statement)

/-- Translation of `SwitchTargets`, `src/charon/src/cfim_ast.rs` lines 67-81: a two-way
`If` or a `SwitchInt` with an ordered list of value-indexed branches and an
otherwise branch (`simplify_st` consumes the branches as an ordered
sequence of pairs). -/
inductive SwitchTargets where
  | If (st1 : Statement) (st2 : Statement)
  | SwitchInt (int_ty : IntegerTy) (targets : List (ScalarValue × Statement))
      (otherwise : Statement)
end

/-- Translation of `Statement::is_panic`, generated by the `EnumIsA` derive on the
statement enum (`src/charon/src/cfim_ast.rs` line 40): true exactly on the
`Panic` variant. -/
def Statement.is_panic : Statement → Bool
  | .Panic => true
  | _ => false

mutual
/-- Translation of `simplify_st`, `src/charon/src/reconstruct_asserts.rs` lines 9-56. -/
def simplify_st : Statement → Statement
  | .Assign p rv => .Assign p rv
  | .FakeRead p => .FakeRead p
  | .SetDiscriminant p vid => .SetDiscriminant p vid
  | .Drop p => .Drop p
  | .Assert a => .Assert a
  | .Call c => .Call c
  | .Panic => .Panic
  | .Return => .Return
  | .Break i => .Break i
  | .Continue i => .Continue i
  | .Nop => .Nop
  | .Switch op (.If st1 st2) =>
    let st2' := simplify_st st2
    -- Check if the first statement is a panic: if yes, replace
    -- the if .. then ... else ... by an assertion.
    if st1.is_panic then
      .Sequence (.Assert { cond := op, expected := false }) st2'
    else
      .Switch op (.If (simplify_st st1) st2')
  | .Switch op (.SwitchInt int_ty targets otherwise) =>
    .Switch op (.SwitchInt int_ty (simplify_targets targets)
      (simplify_st otherwise))
  | .Loop loop_body => .Loop (simplify_st loop_body)
  | .Sequence st1 st2 => .Sequence (simplify_st st1) (simplify_st st2)

/-- The map `targets.into_iter().map(|(v, e)| (v, simplify_st(e)))` of
`src/charon/src/reconstruct_asserts.rs` lines 43-44, as a recursive walk
of the ordered branch list. -/
def simplify_targets :
    List (ScalarValue × Statement) → List (ScalarValue × Statement)
  | [] => []
  | (v, e) :: rest => (v, simplify_st e) :: simplify_targets rest
end

/-- Opaque leaf data: function names (`Name` in the source). -/
abbrev Name := Nat

/-- Opaque leaf data: function signatures (`FunSig`); the pass never
inspects them. -/
abbrev FunSig := Nat

/-- Opaque leaf data: local variable declarations (`Var`). -/
abbrev Var := Nat

/-- The statement body wrapper accessed as `body.body` in `simplify_def`
(`src/charon/src/reconstruct_asserts.rs` line 61). -/
structure ExprBody where
  body : Statement

/-- A function declaration, fields as in `src/charon/src/cfim_ast.rs`
lines 94-107, with the optional body matched by `simplify_def`
(`src/charon/src/reconstruct_asserts.rs` lines 59-65). -/
structure FunDecl where
  def_id : DefId
  name : Name
  signature : FunSig
  divergent : Bool
  arg_count : Nat
  locals : List Var
  body : Option ExprBody

/-- Translation of `simplify_def`, `src/charon/src/reconstruct_asserts.rs` lines 57-67:
replace the body's statement by its simplification, keep everything else
(the `trace!` call is logging only). -/
def simplify_def (d : FunDecl) : FunDecl :=
  { d with
    body :=
      match d.body with
      | Option.some body => Option.some { body with body := simplify_st body.body }
      | Option.none => Option.none }

/-- Translation of `FunDecls`, an ordered collection of function declarations
(`DefId::Vector<FunDecl>` in `src/charon/src/cfim_ast.rs` line 91). -/
abbrev FunDecls := List FunDecl

/-- Translation of `simplify`, `src/charon/src/reconstruct_asserts.rs` lines 69-71:
`FunDecls::from_iter(defs.into_iter().map(simplify_def))`. -/
def simplify (defs : FunDecls) : FunDecls :=
  defs.map simplify_def

mutual
/-- Structural size of a statement tree, the measure that bounds the
recursion depth of `simplify_st`. -/
def Statement.size : Statement → Nat
  | .Switch _ targets => SwitchTargets.size targets + 1
  | .Loop body => Statement.size body + 1
  | .Sequence st1 st2 => Statement.size st1 + Statement.size st2 + 1
  | _ => 1

/-- Structural size of switch targets. -/
def SwitchTargets.size : SwitchTargets → Nat
  | .If st1 st2 => Statement.size st1 + Statement.size st2 + 1
  | .SwitchInt _ targets otherwise =>
    targetsSize targets + Statement.size otherwise + 1

/-- Structural size of an ordered branch list. -/
def targetsSize : List (ScalarValue × Statement) → Nat
  | [] => 0
  | (_, e) :: rest => Statement.size e + targetsSize rest + 1
end

mutual
/-- Fuel-bounded version of `simplify_st`: performs exactly the rewrite of
`simplify_st` but spends one unit of fuel per tree node and reports fuel
exhaustion as `none`.  Used to state that the recursion of `simplify_st`
is bounded by the structural size of its argument. -/
def simplifyF : Nat → Statement → Option Statement
  | 0, _ => Option.none
  | fuel + 1, st =>
    match st with
    | .Switch op (.If st1 st2) => do
      let st2' ← simplifyF fuel st2
      if st1.is_panic then
        Option.some (.Sequence (.Assert { cond := op, expected := false }) st2')
      else do
        let st1' ← simplifyF fuel st1
        Option.some (.Switch op (.If st1' st2'))
    | .Switch op (.SwitchInt int_ty targets otherwise) => do
      let targets' ← simplifyTargetsF fuel targets
      let otherwise' ← simplifyF fuel otherwise
      Option.some (.Switch op (.SwitchInt int_ty targets' otherwise'))
    | .Loop body => do
      let body' ← simplifyF fuel body
      Option.some (.Loop body')
    | .Sequence st1 st2 => do
      let st1' ← simplifyF fuel st1
      let st2' ← simplifyF fuel st2
      Option.some (.Sequence st1' st2')
    | st => Option.some st

/-- Fuel-bounded version of `simplify_targets`. -/
def simplifyTargetsF :
    Nat → List (ScalarValue × Statement) →
      Option (List (ScalarValue × Statement))
  | _, [] => Option.some []
  | 0, _ :: _ => Option.none
  | fuel + 1, (v, e) :: rest => do
    let e' ← simplifyF fuel e
    let rest' ← simplifyTargetsF fuel rest
    Option.some ((v, e') :: rest')
end

/-- An observable event of the simple interpreter: one executed
side-effecting statement leaf (spec section 8, "sequence of statement
leaves"). -/
inductive Event where
  | assign (p : Place) (rv : Rvalue)
  | fakeRead (p : Place)
  | setDiscriminant (p : Place) (vid : VariantId)
  | drop (p : Place)
  | call (c : Call)
  deriving DecidableEq, Repr

/-- How a statement finishes executing: fall through to the next
statement, terminal `Return` or `Abort` (panic), a pending `break i` /
`continue i`, or loop-fuel exhaustion. -/
inductive Outcome where
  | unit
  | ret
  | panic
  | brk (i : Nat)
  | cont (i : Nat)
  | timeout
  deriving DecidableEq, Repr

/-- An interpretation of the (opaque) operands: a boolean reading used by
two-way `If` switches and asserts, and an integer reading used by
`SwitchInt` switches. -/
structure Env where
  evalBool : Operand → Bool
  evalInt : Operand → ScalarValue

/-- Result of running a statement: the trace of executed side-effecting
leaves and the outcome. -/
abbrev EvalResult := List Event × Outcome

/-- Iterate a loop whose (pure) body evaluates to `r`, at most `n` more
times: `break 0` exits the loop, `continue 0` and fall-through repeat it,
outer `break`/`continue` indices are decremented, `Return`/`Abort`
propagate. -/
def iterLoop (r : EvalResult) : Nat → EvalResult
  | 0 => ([], .timeout)
  | n + 1 =>
    match r.2 with
    | .brk 0 => (r.1, .unit)
    | .brk (k + 1) => (r.1, .brk k)
    | .cont 0 =>
      let r2 := iterLoop r n
      (r.1 ++ r2.1, r2.2)
    | .cont (k + 1) => (r.1, .cont k)
    | .unit =>
      let r2 := iterLoop r n
      (r.1 ++ r2.1, r2.2)
    | .ret => (r.1, .ret)
    | .panic => (r.1, .panic)
    | .timeout => (r.1, .timeout)

mutual
/-- The simple interpreter of spec section 8: `fuel` bounds the number of
iterations of each loop; an assert with `expected := false` aborts exactly
when its condition evaluates to true; the trace records the executed
side-effecting leaves in order. -/
def eval (env : Env) (fuel : Nat) : Statement → EvalResult
  | .Assign p rv => ([.assign p rv], .unit)
  | .FakeRead p => ([.fakeRead p], .unit)
  | .SetDiscriminant p vid => ([.setDiscriminant p vid], .unit)
  | .Drop p => ([.drop p], .unit)
  | .Assert a =>
    if env.evalBool a.cond = a.expected then ([], .unit) else ([], .panic)
  | .Call c => ([.call c], .unit)
  | .Panic => ([], .panic)
  | .Return => ([], .ret)
  | .Break i => ([], .brk i)
  | .Continue i => ([], .cont i)
  | .Nop => ([], .unit)
  | .Switch op (.If st1 st2) =>
    if env.evalBool op then eval env fuel st1 else eval env fuel st2
  | .Switch op (.SwitchInt _ targets otherwise) =>
    match evalCases env fuel (env.evalInt op) targets with
    | Option.some r => r
    | Option.none => eval env fuel otherwise
  | .Loop body => iterLoop (eval env fuel body) fuel
  | .Sequence st1 st2 =>
    let r1 := eval env fuel st1
    if r1.2 = .unit then
      let r2 := eval env fuel st2
      (r1.1 ++ r2.1, r2.2)
    else r1

/-- Select and run the first branch whose value equals the scrutinee;
`none` when no branch matches (the `otherwise` branch then runs). -/
def evalCases (env : Env) (fuel : Nat) (n : ScalarValue) :
    List (ScalarValue × Statement) → Option EvalResult
  | [] => Option.none
  | (v, e) :: rest =>
    if v = n then Option.some (eval env fuel e)
    else evalCases env fuel n rest
end

mutual
/-- Depth well-formedness at `d` enclosing loops: every `break i` /
`continue i` leaf satisfies `i < d` counting the `Loop` nodes above it
(spec section 3 invariant). -/
def wfDepth : Nat → Statement → Bool
  | d, .Break i => decide (i < d)
  | d, .Continue i => decide (i < d)
  | d, .Switch _ targets => wfDepthTargets d targets
  | d, .Loop body => wfDepth (d + 1) body
  | d, .Sequence st1 st2 => wfDepth d st1 && wfDepth d st2
  | _, _ => true

/-- Depth well-formedness of switch targets. -/
def wfDepthTargets : Nat → SwitchTargets → Bool
  | d, .If st1 st2 => wfDepth d st1 && wfDepth d st2
  | d, .SwitchInt _ targets otherwise =>
    wfDepthList d targets && wfDepth d otherwise

/-- Depth well-formedness of an ordered branch list. -/
def wfDepthList : Nat → List (ScalarValue × Statement) → Bool
  | _, [] => true
  | d, (_, e) :: rest => wfDepth d e && wfDepthList d rest
end

mutual
/-- Number of `Assert` leaves with `expected := true` in a statement. -/
def countTrueAsserts : Statement → Nat
  | .Assert a => if a.expected then 1 else 0
  | .Switch _ targets => countTrueAssertsTargets targets
  | .Loop body => countTrueAsserts body
  | .Sequence st1 st2 => countTrueAsserts st1 + countTrueAsserts st2
  | _ => 0

/-- Number of `Assert` leaves with `expected := true` in switch targets. -/
def countTrueAssertsTargets : SwitchTargets → Nat
  | .If st1 st2 => countTrueAsserts st1 + countTrueAsserts st2
  | .SwitchInt _ targets otherwise =>
    countTrueAssertsList targets + countTrueAsserts otherwise

/-- Number of `Assert` leaves with `expected := true` in a branch list. -/
def countTrueAssertsList : List (ScalarValue × Statement) → Nat
  | [] => 0
  | (_, e) :: rest => countTrueAsserts e + countTrueAssertsList rest
end

/-- Builds `n` no-op statements in front of the `Panic` leaf:
`nopsThenPanic 0 = Panic`, `nopsThenPanic (n+1) = Sequence(Nop, ...)`. -/
def nopsThenPanic : Nat → Statement
  | 0 => .Panic
  | n + 1 => .Sequence .Nop (nopsThenPanic n)

end Charon

namespace Charon

namespace cfim

/-- Statement of the split CFIM AST, `src/charon/src/cfim_ast.rs` lines
40-65: the statement leaves only (the tree constructors live in
`Expression`). -/
inductive Statement where
  | Assign (p : Place) (rv : Rvalue)
  | FakeRead (p : Place)
  | SetDiscriminant (p : Place) (vid : VariantId)
  | Drop (p : Place)
  | Assert (a : Charon.Assert)
  | Call (c : Charon.Call)
  | Panic
  | Return
  | Break (i : Nat)
  | Continue (i : Nat)
  | Nop

mutual
/-- Expression of the split CFIM AST, `src/charon/src/cfim_ast.rs` lines
83-89. -/
inductive Expression where
  | Statement (st : cfim.Statement)
  | Sequence (e1 : Expression) (e2 : Expression)
  | Switch (discr : Operand) (targets : SwitchTargets)
  | Loop (e : Expression)

/-- Switch targets of the split CFIM AST, `src/charon/src/cfim_ast.rs`
lines 67-81; the `LinkedHashMap` of the `SwitchInt` variant is embedded as
its insertion-ordered list of key-value pairs (the map is only ever
iterated in that order). -/
inductive SwitchTargets where
  | If (true_exp : Expression) (false_exp : Expression)
  | SwitchInt (int_ty : IntegerTy) (maps : List (ScalarValue × Expression))
      (otherwise : Expression)
end

/-- Formatting context: the `Formatter` bounds of `fmt_with_ctx` together
with the formatters of the leaf values whose sources are outside this
core (`Place::fmt_with_ctx`, `Rvalue::fmt_with_ctx`,
`Operand::fmt_with_ctx`, `ErasedRegion::to_string`, `ETy::fmt_with_ctx`,
`ctx.format_object` on `DefId`, `ScalarValue::to_string`), all opaque
string-valued functions here. -/
structure FmtCtx where
  fmtPlace : Place → String
  fmtRvalue : Rvalue → String
  fmtOperand : Operand → String
  fmtErasedRegion : ErasedRegion → String
  fmtETy : ETy → String
  fmtDefId : DefId → String
  fmtScalar : ScalarValue → String

/-- Translation of `Statement::fmt_with_ctx`,
`src/charon/src/cfim_ast.rs` lines 109-195. -/
def Statement.fmt_with_ctx (ctx : FmtCtx) : Statement → String
  | .Assign place rvalue =>
    ctx.fmtPlace place ++ " := " ++ ctx.fmtRvalue rvalue
  | .FakeRead place => "@fake_read(" ++ ctx.fmtPlace place ++ ")"
  | .SetDiscriminant place variant_id =>
    "@discriminant(" ++ ctx.fmtPlace place ++ ") := " ++ toString variant_id
  | .Assert a =>
    "assert(" ++ ctx.fmtOperand a.cond ++ " == " ++ toString a.expected ++ ")"
  | .Drop place => "drop " ++ ctx.fmtPlace place
  | .Call c =>
    let params :=
      if c.region_params.length + c.type_params.length == 0 then ""
      else
        "<" ++
          String.intercalate ", "
            (c.region_params.map ctx.fmtErasedRegion ++
              c.type_params.map ctx.fmtETy) ++ ">"
    let args := String.intercalate ", " (c.args.map ctx.fmtOperand)
    let f :=
      match c.func with
      | .Local def_id => ctx.fmtDefId def_id ++ params
      | .Assumed .BoxNew => "alloc::boxed::Box" ++ params ++ "::new"
      | .Assumed .BoxDeref =>
        "core::ops::deref::Deref<Box" ++ params ++ ">::deref"
      | .Assumed .BoxDerefMut =>
        "core::ops::deref::DerefMut<Box" ++ params ++ ">::deref_mut"
      | .Assumed .BoxFree => "alloc::alloc::box_free<" ++ params ++ ">"
    ctx.fmtPlace c.dest ++ " := " ++ f ++ "(" ++ args ++ ")"
  | .Panic => "panic"
  | .Return => "return"
  | .Break index => "break " ++ toString index
  | .Continue index => "continue " ++ toString index
  | .Nop => "nop"

mutual
/-- Translation of `Expression::fmt_with_ctx`,
`src/charon/src/cfim_ast.rs` lines 197-279. -/
def Expression.fmt_with_ctx : Expression → String → FmtCtx → String
  | .Statement st, tab, ctx => tab ++ Statement.fmt_with_ctx ctx st ++ ";"
  | .Sequence e1 e2, tab, ctx =>
    Expression.fmt_with_ctx e1 tab ctx ++ "\n" ++
      Expression.fmt_with_ctx e2 tab ctx
  | .Switch discr (.If true_exp false_exp), tab, ctx =>
    let inner_tab := tab ++ tab
    tab ++ "if " ++ ctx.fmtOperand discr ++ " \x7b\n" ++
      Expression.fmt_with_ctx true_exp inner_tab ctx ++ "\n" ++
      tab ++ "\x7d\n" ++
      tab ++ "else \x7b\n" ++
      Expression.fmt_with_ctx false_exp inner_tab ctx ++ "\n" ++
      tab ++ "\x7d"
  | .Switch discr (.SwitchInt _int_ty maps otherwise), tab, ctx =>
    let inner_tab := tab ++ tab
    let maps_s :=
      fmtMaps maps tab inner_tab ctx ++
        [tab ++ "_ => \x7b\n" ++
          Expression.fmt_with_ctx otherwise inner_tab ctx ++ "\n" ++
          tab ++ "\x7d"]
    tab ++ "switch " ++ ctx.fmtOperand discr ++ " \x7b\n" ++
      String.intercalate ",\n" maps_s ++ "\n" ++ tab ++ "\x7d"
  | .Loop e, tab, ctx =>
    let inner_tab := tab ++ tab
    tab ++ "loop \x7b\n" ++
      Expression.fmt_with_ctx e inner_tab ctx ++ "\n" ++ tab ++ "\x7d"

/-- Rendering of the value-indexed branches of a `SwitchInt`
(the `maps.iter().map(...)` loop of `src/charon/src/cfim_ast.rs` lines
233-245), walking the branch list in its stored order. -/
def fmtMaps :
    List (ScalarValue × Expression) → String → String → FmtCtx → List String
  | [], _, _, _ => []
  | (v, e) :: rest, tab, inner_tab, ctx =>
    (tab ++ ctx.fmtScalar v ++ " => \x7b\n" ++
        Expression.fmt_with_ctx e inner_tab ctx ++ "\n" ++ tab ++ "\x7d") ::
      fmtMaps rest tab inner_tab ctx
end

end cfim

end Charon

/-- C1: `Switch(cond, If(Panic, rest))` simplifies to
`Sequence(Assert(cond, false), simplify_st rest)`. -/
theorem Charon.simplify_st_panic_then (cond : Charon.Operand)
    (rest : Charon.Statement) :
    Charon.simplify_st (.Switch cond (.If .Panic rest)) =
      .Sequence (.Assert { cond := cond, expected := false })
        (Charon.simplify_st rest) := by
  simp [Charon.simplify_st, Charon.Statement.is_panic]

namespace Charon

theorem simplify_targets_eq_map (ts : List (ScalarValue × Statement)) :
    simplify_targets ts = ts.map (fun ve => (ve.1, simplify_st ve.2)) := by
  induction ts with
  | nil => simp [simplify_targets]
  | cons ve rest ih =>
    obtain ⟨v, e⟩ := ve
    simp [simplify_targets, ih]

theorem simplify_st_if_panic (op : Operand) (st1 st2 : Statement)
    (h : st1.is_panic = true) :
    simplify_st (.Switch op (.If st1 st2)) =
      .Sequence (.Assert { cond := op, expected := false }) (simplify_st st2) := by
  simp [simplify_st, h]

theorem simplify_st_if_not_panic (op : Operand) (st1 st2 : Statement)
    (h : st1.is_panic = false) :
    simplify_st (.Switch op (.If st1 st2)) =
      .Switch op (.If (simplify_st st1) (simplify_st st2)) := by
  simp [simplify_st, h]

theorem is_panic_simplify (st : Statement) :
    (simplify_st st).is_panic = st.is_panic := by
  cases st with
  | Switch op targets =>
    cases targets with
    | If st1 st2 =>
      by_cases h : st1.is_panic
      · rw [simplify_st_if_panic op st1 st2 h]
        simp [Statement.is_panic]
      · rw [simplify_st_if_not_panic op st1 st2 (by simpa using h)]
        simp [Statement.is_panic]
    | SwitchInt ty ts oth => simp [simplify_st, Statement.is_panic]
  | _ => simp [simplify_st, Statement.is_panic]

mutual
theorem simplify_st_idem_aux :
    ∀ st : Statement, simplify_st (simplify_st st) = simplify_st st
  | .Assign p rv => rfl
  | .FakeRead p => rfl
  | .SetDiscriminant p vid => rfl
  | .Drop p => rfl
  | .Assert a => rfl
  | .Call c => rfl
  | .Panic => rfl
  | .Return => rfl
  | .Break i => rfl
  | .Continue i => rfl
  | .Nop => rfl
  | .Switch op (.If st1 st2) => by
    by_cases h : st1.is_panic
    · rw [simplify_st_if_panic op st1 st2 h]
      simp [simplify_st, simplify_st_idem_aux st2]
    · have h' : st1.is_panic = false := by simpa using h
      have h2 : (simplify_st st1).is_panic = false := by
        rw [is_panic_simplify]; exact h'
      rw [simplify_st_if_not_panic op st1 st2 h',
        simplify_st_if_not_panic op (simplify_st st1) (simplify_st st2) h2,
        simplify_st_idem_aux st1, simplify_st_idem_aux st2]
  | .Switch op (.SwitchInt ty ts oth) => by
    simp [simplify_st, simplify_targets_idem_aux ts, simplify_st_idem_aux oth]
  | .Loop body => by simp [simplify_st, simplify_st_idem_aux body]
  | .Sequence st1 st2 => by
    simp [simplify_st, simplify_st_idem_aux st1, simplify_st_idem_aux st2]

theorem simplify_targets_idem_aux :
    ∀ ts : List (ScalarValue × Statement),
      simplify_targets (simplify_targets ts) = simplify_targets ts
  | [] => rfl
  | (v, e) :: rest => by
    simp [simplify_targets, simplify_st_idem_aux e, simplify_targets_idem_aux rest]
end

end Charon

namespace Charon

/-- A statement is a panic exactly when it is the `Panic` leaf. -/
theorem is_panic_iff (st : Statement) : st.is_panic = true ↔ st = .Panic := by
  cases st <;> simp [Statement.is_panic]

mutual
theorem eval_simplify_aux (env : Env) (fuel : Nat) :
    ∀ st : Statement, eval env fuel (simplify_st st) = eval env fuel st
  | .Assign p rv => rfl
  | .FakeRead p => rfl
  | .SetDiscriminant p vid => rfl
  | .Drop p => rfl
  | .Assert a => rfl
  | .Call c => rfl
  | .Panic => rfl
  | .Return => rfl
  | .Break i => rfl
  | .Continue i => rfl
  | .Nop => rfl
  | .Switch op (.If st1 st2) => by
    by_cases h : st1.is_panic
    · have hp : st1 = .Panic := (is_panic_iff st1).mp h
      subst hp
      rw [simplify_st_if_panic op .Panic st2 rfl]
      by_cases hb : env.evalBool op
      · simp [eval, hb, Statement.is_panic]
      · have hb' : env.evalBool op = false := by simpa using hb
        rcases hr : eval env fuel st2 with ⟨t2, o2⟩
        simp [eval, hb', eval_simplify_aux env fuel st2, hr]
    · have h' : st1.is_panic = false := by simpa using h
      rw [simplify_st_if_not_panic op st1 st2 h']
      by_cases hb : env.evalBool op <;>
        simp [eval, hb, eval_simplify_aux env fuel st1,
          eval_simplify_aux env fuel st2]
  | .Switch op (.SwitchInt ty ts oth) => by
    simp only [simplify_st]
    simp only [eval, evalCases_simplify_aux env fuel (env.evalInt op) ts,
      eval_simplify_aux env fuel oth]
  | .Loop body => by
    simp only [simplify_st]
    simp only [eval, eval_simplify_aux env fuel body]
  | .Sequence st1 st2 => by
    simp only [simplify_st]
    simp only [eval, eval_simplify_aux env fuel st1,
      eval_simplify_aux env fuel st2]

theorem evalCases_simplify_aux (env : Env) (fuel : Nat) (n : ScalarValue) :
    ∀ ts : List (ScalarValue × Statement),
      evalCases env fuel n (simplify_targets ts) = evalCases env fuel n ts
  | [] => rfl
  | (v, e) :: rest => by
    simp only [simplify_targets]
    simp only [evalCases, eval_simplify_aux env fuel e,
      evalCases_simplify_aux env fuel n rest]
end

end Charon

namespace Charon

mutual
theorem wfDepth_simplify_aux :
    ∀ (st : Statement) (d : Nat), wfDepth d (simplify_st st) = wfDepth d st
  | .Assign p rv, d => rfl
  | .FakeRead p, d => rfl
  | .SetDiscriminant p vid, d => rfl
  | .Drop p, d => rfl
  | .Assert a, d => rfl
  | .Call c, d => rfl
  | .Panic, d => rfl
  | .Return, d => rfl
  | .Break i, d => rfl
  | .Continue i, d => rfl
  | .Nop, d => rfl
  | .Switch op (.If st1 st2), d => by
    by_cases h : st1.is_panic
    · rw [simplify_st_if_panic op st1 st2 h]
      have hp : st1 = .Panic := (is_panic_iff st1).mp h
      subst hp
      simp [wfDepth, wfDepthTargets, wfDepth_simplify_aux st2 d]
    · rw [simplify_st_if_not_panic op st1 st2 (by simpa using h)]
      simp [wfDepth, wfDepthTargets, wfDepth_simplify_aux st1 d,
        wfDepth_simplify_aux st2 d]
  | .Switch op (.SwitchInt ty ts oth), d => by
    simp only [simplify_st]
    simp only [wfDepth, wfDepthTargets, wfDepthList_simplify_aux ts d,
      wfDepth_simplify_aux oth d]
  | .Loop body, d => by
    simp only [simplify_st]
    simp only [wfDepth, wfDepth_simplify_aux body (d + 1)]
  | .Sequence st1 st2, d => by
    simp only [simplify_st]
    simp only [wfDepth, wfDepth_simplify_aux st1 d, wfDepth_simplify_aux st2 d]

theorem wfDepthList_simplify_aux :
    ∀ (ts : List (ScalarValue × Statement)) (d : Nat),
      wfDepthList d (simplify_targets ts) = wfDepthList d ts
  | [], d => rfl
  | (v, e) :: rest, d => by
    simp only [simplify_targets]
    simp only [wfDepthList, wfDepth_simplify_aux e d,
      wfDepthList_simplify_aux rest d]
end

mutual
theorem countTrueAsserts_simplify_aux :
    ∀ st : Statement, countTrueAsserts (simplify_st st) = countTrueAsserts st
  | .Assign p rv => rfl
  | .FakeRead p => rfl
  | .SetDiscriminant p vid => rfl
  | .Drop p => rfl
  | .Assert a => rfl
  | .Call c => rfl
  | .Panic => rfl
  | .Return => rfl
  | .Break i => rfl
  | .Continue i => rfl
  | .Nop => rfl
  | .Switch op (.If st1 st2) => by
    by_cases h : st1.is_panic
    · rw [simplify_st_if_panic op st1 st2 h]
      have hp : st1 = .Panic := (is_panic_iff st1).mp h
      subst hp
      simp [countTrueAsserts, countTrueAssertsTargets,
        countTrueAsserts_simplify_aux st2]
    · rw [simplify_st_if_not_panic op st1 st2 (by simpa using h)]
      simp [countTrueAsserts, countTrueAssertsTargets,
        countTrueAsserts_simplify_aux st1, countTrueAsserts_simplify_aux st2]
  | .Switch op (.SwitchInt ty ts oth) => by
    simp only [simplify_st]
    simp only [countTrueAsserts, countTrueAssertsTargets,
      countTrueAssertsList_simplify_aux ts, countTrueAsserts_simplify_aux oth]
  | .Loop body => by
    simp only [simplify_st]
    simp only [countTrueAsserts, countTrueAsserts_simplify_aux body]
  | .Sequence st1 st2 => by
    simp only [simplify_st]
    simp only [countTrueAsserts, countTrueAsserts_simplify_aux st1,
      countTrueAsserts_simplify_aux st2]

theorem countTrueAssertsList_simplify_aux :
    ∀ ts : List (ScalarValue × Statement),
      countTrueAssertsList (simplify_targets ts) = countTrueAssertsList ts
  | [] => rfl
  | (v, e) :: rest => by
    simp only [simplify_targets]
    simp only [countTrueAssertsList, countTrueAsserts_simplify_aux e,
      countTrueAssertsList_simplify_aux rest]
end

theorem simplifyF_sound_aux :
    ∀ fuel : Nat,
      (∀ st : Statement, Statement.size st ≤ fuel →
        simplifyF fuel st = Option.some (simplify_st st)) ∧
      (∀ ts : List (ScalarValue × Statement), targetsSize ts ≤ fuel →
        simplifyTargetsF fuel ts = Option.some (simplify_targets ts)) := by
  intro fuel
  induction fuel with
  | zero =>
    constructor
    · intro st hst
      exfalso
      cases st <;> simp [Statement.size] at hst
    · intro ts hts
      cases ts with
      | nil => simp [simplifyTargetsF, simplify_targets]
      | cons ve rest =>
        exfalso
        obtain ⟨v, e⟩ := ve
        simp [targetsSize] at hts
  | succ fuel ih =>
    constructor
    · intro st hst
      cases st with
      | Assign p rv => simp [simplifyF, simplify_st]
      | FakeRead p => simp [simplifyF, simplify_st]
      | SetDiscriminant p vid => simp [simplifyF, simplify_st]
      | Drop p => simp [simplifyF, simplify_st]
      | Assert a => simp [simplifyF, simplify_st]
      | Call c => simp [simplifyF, simplify_st]
      | Panic => simp [simplifyF, simplify_st]
      | Return => simp [simplifyF, simplify_st]
      | Break i => simp [simplifyF, simplify_st]
      | Continue i => simp [simplifyF, simplify_st]
      | Nop => simp [simplifyF, simplify_st]
      | Switch op targets =>
        cases targets with
        | If st1 st2 =>
          have hsz : SwitchTargets.size (.If st1 st2) + 1 ≤ fuel + 1 := by
            simpa [Statement.size] using hst
          have h1 : Statement.size st1 ≤ fuel := by
            simp [SwitchTargets.size] at hsz; omega
          have h2 : Statement.size st2 ≤ fuel := by
            simp [SwitchTargets.size] at hsz; omega
          by_cases h : st1.is_panic
          · rw [simplify_st_if_panic op st1 st2 h]
            simp [simplifyF, (ih.1) st2 h2, h]
          · have h' : st1.is_panic = false := by simpa using h
            rw [simplify_st_if_not_panic op st1 st2 h']
            simp [simplifyF, (ih.1) st1 h1, (ih.1) st2 h2, h']
        | SwitchInt ty ts oth =>
          have hsz : SwitchTargets.size (.SwitchInt ty ts oth) + 1 ≤ fuel + 1 := by
            simpa [Statement.size] using hst
          have h1 : targetsSize ts ≤ fuel := by
            simp [SwitchTargets.size] at hsz; omega
          have h2 : Statement.size oth ≤ fuel := by
            simp [SwitchTargets.size] at hsz; omega
          simp [simplifyF, simplify_st, (ih.2) ts h1, (ih.1) oth h2]
      | Loop body =>
        have h1 : Statement.size body ≤ fuel := by
          simp [Statement.size] at hst; omega
        simp [simplifyF, simplify_st, (ih.1) body h1]
      | Sequence st1 st2 =>
        have h1 : Statement.size st1 ≤ fuel := by
          simp [Statement.size] at hst; omega
        have h2 : Statement.size st2 ≤ fuel := by
          simp [Statement.size] at hst; omega
        simp [simplifyF, simplify_st, (ih.1) st1 h1, (ih.1) st2 h2]
    · intro ts hts
      cases ts with
      | nil => simp [simplifyTargetsF, simplify_targets]
      | cons ve rest =>
        obtain ⟨v, e⟩ := ve
        have h1 : Statement.size e ≤ fuel := by
          simp [targetsSize] at hts; omega
        have h2 : targetsSize rest ≤ fuel := by
          simp [targetsSize] at hts; omega
        simp [simplifyTargetsF, simplify_targets, (ih.1) e h1, (ih.2) rest h2]

end Charon

namespace Charon

theorem cfim.fmtMaps_eq_map (maps : List (ScalarValue × cfim.Expression))
    (tab inner_tab : String) (ctx : cfim.FmtCtx) :
    cfim.fmtMaps maps tab inner_tab ctx =
      maps.map (fun ve =>
        tab ++ ctx.fmtScalar ve.1 ++ " => \x7b\n" ++
          cfim.Expression.fmt_with_ctx ve.2 inner_tab ctx ++ "\n" ++
          tab ++ "\x7d") := by
  induction maps with
  | nil => simp [cfim.fmtMaps]
  | cons ve rest ih =>
    obtain ⟨v, e⟩ := ve
    simp [cfim.fmtMaps, ih]

end Charon

namespace Charon

theorem simplify_st_nopsThenPanic (n : Nat) :
    simplify_st (nopsThenPanic n) = nopsThenPanic n := by
  induction n with
  | zero => rfl
  | succ n ih => simp [nopsThenPanic, simplify_st, ih]

theorem is_panic_nopsThenPanic_succ (n : Nat) :
    (nopsThenPanic (n + 1)).is_panic = false := by
  simp [nopsThenPanic, Statement.is_panic]

end Charon

/-- C2: canonicalization is semantics-preserving: under the simple
interpreter, for every operand interpretation and loop-fuel bound,
`simplify_st st` produces the same trace of executed side-effecting
statement leaves and the same outcome as `st`. -/
theorem Charon.simplify_st_preserves_semantics (env : Charon.Env)
    (fuel : Nat) (st : Charon.Statement) :
    Charon.eval env fuel (Charon.simplify_st st) = Charon.eval env fuel st :=
  Charon.eval_simplify_aux env fuel st

/-- C3: canonicalization is idempotent: `simplify_st (simplify_st st)`
is structurally equal to `simplify_st st` for every statement. -/
theorem Charon.simplify_st_idempotent (st : Charon.Statement) :
    Charon.simplify_st (Charon.simplify_st st) = Charon.simplify_st st :=
  Charon.simplify_st_idem_aux st

/-- C4, counterexample: a then-branch that is a `Nop` followed by the
`Panic` leaf is not folded into an assertion: at `cond = 0` and
`rest = Return` the result differs from
`Sequence(Assert(cond, false), simplify_st rest)`. -/
theorem Charon.simplify_st_nop_panic_counterexample :
    Charon.simplify_st
        (.Switch 0 (.If (.Sequence .Nop .Panic) .Return)) ≠
      .Sequence (.Assert { cond := 0, expected := false })
        (Charon.simplify_st .Return) := by
  simp [Charon.simplify_st, Charon.Statement.is_panic]

/-- C4, amended: when the then-branch is the `Panic` leaf preceded by one
or more `Nop` statements, the assert-folding rule does not apply: the
`Switch` node is kept, the then-branch is returned unchanged (the no-ops
are not dropped), and the else-branch is canonicalized recursively. -/
theorem Charon.simplify_st_nop_panic_keeps_switch (n : Nat)
    (op : Charon.Operand) (st2 : Charon.Statement) :
    Charon.simplify_st
        (.Switch op (.If (Charon.nopsThenPanic (n + 1)) st2)) =
      .Switch op (.If (Charon.nopsThenPanic (n + 1))
        (Charon.simplify_st st2)) := by
  rw [Charon.simplify_st_if_not_panic op (Charon.nopsThenPanic (n + 1)) st2
      (Charon.is_panic_nopsThenPanic_succ n),
    Charon.simplify_st_nopsThenPanic (n + 1)]

/-- C5: the mirrored shape is not folded: when the then-branch is not the
panic leaf (even when the else-branch is), the result is a `Switch` with
the same condition and both branches canonicalized recursively, and the
pass introduces no `Assert` with `expected := true` anywhere. -/
theorem Charon.simplify_st_mirrored_not_folded (op : Charon.Operand)
    (st1 st2 : Charon.Statement) (h : st1.is_panic = false) :
    Charon.simplify_st (.Switch op (.If st1 st2)) =
        .Switch op (.If (Charon.simplify_st st1) (Charon.simplify_st st2)) ∧
      Charon.countTrueAsserts
          (Charon.simplify_st (.Switch op (.If st1 st2))) =
        Charon.countTrueAsserts (.Switch op (.If st1 st2)) :=
  ⟨Charon.simplify_st_if_not_panic op st1 st2 h,
    Charon.countTrueAsserts_simplify_aux (.Switch op (.If st1 st2))⟩

/-- C5, witness: the concrete mirrored shape
`if 0 { return } else { panic }` with a non-panic then-branch. -/
theorem Charon.simplify_st_mirrored_not_folded_witness :
    Charon.Statement.is_panic .Return = false ∧
      (Charon.simplify_st (.Switch 0 (.If .Return .Panic)) =
          .Switch 0 (.If (Charon.simplify_st .Return)
            (Charon.simplify_st .Panic)) ∧
        Charon.countTrueAsserts
            (Charon.simplify_st (.Switch 0 (.If .Return .Panic))) =
          Charon.countTrueAsserts (.Switch 0 (.If .Return .Panic))) :=
  ⟨by decide, Charon.simplify_st_mirrored_not_folded 0 .Return .Panic (by decide)⟩

/-- C6: on a `SwitchInt` the pass keeps the integer type, maps each case
branch in the stored order while keeping its value, canonicalizes the
otherwise branch, and never applies the assert-folding rule. -/
theorem Charon.simplify_st_switchint_in_order (op : Charon.Operand)
    (int_ty : Charon.IntegerTy)
    (targets : List (Charon.ScalarValue × Charon.Statement))
    (otherwise : Charon.Statement) :
    Charon.simplify_st (.Switch op (.SwitchInt int_ty targets otherwise)) =
      .Switch op (.SwitchInt int_ty
        (targets.map (fun ve => (ve.1, Charon.simplify_st ve.2)))
        (Charon.simplify_st otherwise)) := by
  simp only [Charon.simplify_st, Charon.simplify_targets_eq_map]

/-- C7: canonicalization preserves depth well-formedness: if every
`break i` / `continue i` leaf of `st` satisfies `i <` the number of
enclosing `Loop` nodes, the same holds in `simplify_st st`. -/
theorem Charon.simplify_st_preserves_wfDepth (st : Charon.Statement)
    (d : Nat) (h : Charon.wfDepth d st = true) :
    Charon.wfDepth d (Charon.simplify_st st) = true := by
  rw [Charon.wfDepth_simplify_aux st d]
  exact h

/-- C7, witness: a loop whose body breaks and continues at depth 0. -/
theorem Charon.simplify_st_preserves_wfDepth_witness :
    Charon.wfDepth 0 (.Loop (.Sequence (.Break 0) (.Continue 0))) = true ∧
      Charon.wfDepth 0
        (Charon.simplify_st (.Loop (.Sequence (.Break 0) (.Continue 0)))) =
        true :=
  ⟨by decide,
    Charon.simplify_st_preserves_wfDepth
      (.Loop (.Sequence (.Break 0) (.Continue 0))) 0 (by decide)⟩

/-- C8: the recursion of `simplify_st` is structural: the fuel-bounded
variant `simplifyF` never fails once the fuel reaches the structural size
of its argument, and then returns exactly `simplify_st`. -/
theorem Charon.simplify_st_total_fuel (st : Charon.Statement) (fuel : Nat)
    (h : Charon.Statement.size st ≤ fuel) :
    Charon.simplifyF fuel st = Option.some (Charon.simplify_st st) :=
  (Charon.simplifyF_sound_aux fuel).1 st h

/-- C8, witness: the fuel bound evaluated on a concrete statement. -/
theorem Charon.simplify_st_total_fuel_witness :
    Charon.Statement.size (.Switch 0 (.If .Panic .Return)) ≤ 4 ∧
      Charon.simplifyF 4 (.Switch 0 (.If .Panic .Return)) =
        Option.some (Charon.simplify_st (.Switch 0 (.If .Panic .Return))) :=
  ⟨by decide,
    Charon.simplify_st_total_fuel (.Switch 0 (.If .Panic .Return)) 4 (by decide)⟩

/-- C9: pretty-printing a `Switch` with `SwitchInt` targets renders the
case branches in their stored order and the default branch last. -/
theorem Charon.cfim.fmt_switchint_cases_in_order (discr : Charon.Operand)
    (int_ty : Charon.IntegerTy)
    (maps : List (Charon.ScalarValue × Charon.cfim.Expression))
    (otherwise : Charon.cfim.Expression) (tab : String)
    (ctx : Charon.cfim.FmtCtx) :
    Charon.cfim.Expression.fmt_with_ctx
        (.Switch discr (.SwitchInt int_ty maps otherwise)) tab ctx =
      tab ++ "switch " ++ ctx.fmtOperand discr ++ " \x7b\n" ++
        String.intercalate ",\n"
          ((maps.map fun ve =>
              tab ++ ctx.fmtScalar ve.1 ++ " => \x7b\n" ++
                Charon.cfim.Expression.fmt_with_ctx ve.2 (tab ++ tab) ctx ++
                "\n" ++ tab ++ "\x7d") ++
            [tab ++ "_ => \x7b\n" ++
              Charon.cfim.Expression.fmt_with_ctx otherwise (tab ++ tab) ctx ++
              "\n" ++ tab ++ "\x7d"]) ++
        "\n" ++ tab ++ "\x7d" := by
  simp only [Charon.cfim.Expression.fmt_with_ctx, Charon.cfim.fmtMaps_eq_map]

/-- C10: the public pass `simplify` rewrites only the bodies: the number
and order of declarations is preserved, every other field of every
declaration is unchanged, and a declaration without a body keeps none. -/
theorem Charon.simplify_preserves_decl_frame (defs : Charon.FunDecls) :
    (Charon.simplify defs).length = defs.length ∧
    ∀ i : Nat,
      (Charon.simplify defs)[i]?.map Charon.FunDecl.def_id =
          defs[i]?.map Charon.FunDecl.def_id ∧
      (Charon.simplify defs)[i]?.map Charon.FunDecl.name =
          defs[i]?.map Charon.FunDecl.name ∧
      (Charon.simplify defs)[i]?.map Charon.FunDecl.signature =
          defs[i]?.map Charon.FunDecl.signature ∧
      (Charon.simplify defs)[i]?.map Charon.FunDecl.divergent =
          defs[i]?.map Charon.FunDecl.divergent ∧
      (Charon.simplify defs)[i]?.map Charon.FunDecl.arg_count =
          defs[i]?.map Charon.FunDecl.arg_count ∧
      (Charon.simplify defs)[i]?.map Charon.FunDecl.locals =
          defs[i]?.map Charon.FunDecl.locals ∧
      (Charon.simplify defs)[i]?.map (fun d => d.body.isSome) =
          defs[i]?.map (fun d => d.body.isSome) := by
  refine ⟨by simp [Charon.simplify], ?_⟩
  intro i
  rcases h : defs[i]? with _ | d
  · simp [Charon.simplify, List.getElem?_map, h]
  · have h2 : (Charon.simplify defs)[i]? =
        Option.some (Charon.simplify_def d) := by
      simp [Charon.simplify, List.getElem?_map, h]
    refine ⟨?_, ?_, ?_, ?_, ?_, ?_, ?_⟩
    all_goals simp [h2, h, Charon.simplify_def]
    all_goals cases hb : d.body <;> simp
